import Mathlib

/-!
Verification of the image size-reduction pipeline in
`scripts/compress_og_banner.py`.

The pipeline (`compress_image`) is shallowly embedded below.  External
image-library behaviour (pixel decoding, JPEG/PNG encoders, LANCZOS
resampling) is modelled by an oracle environment `Env`: the encoders are
arbitrary size functions, pixel data is an abstract `Nat` tag transformed
by oracle functions.  File sizes are in bytes; the script compares
`st_size / 1024 < max_size_kb` with exact binary float division, which for
realistic sizes equals the rational comparison formalised in
`underBudget_iff_rat`.  Failures that the Python code can raise mid-run
(a `save` or `open` raising) are injected through `FailSpec`; the result
type `Except ErrInfo RunResult` records the backup-file state on both
normal return and raise.
-/

/-- Encoding format of one save call: PNG (lossless) or JPEG at a quality. -/
inductive Fmt where
  | png : Fmt
  | jpeg : Nat → Fmt
deriving DecidableEq, Repr

/-- An in-memory decoded raster image: dimensions, PIL color mode string
(such as "RGBA", "RGB", "LA"), and an abstract pixel-data tag. -/
structure Image where
  width : Nat
  height : Nat
  mode : String
  pix : Nat
deriving DecidableEq, Repr

/-- Oracle environment: the input file's existence, the decoded original
image, and the external image-library operations (white-background
compositing, LANCZOS resampling, PNG and JPEG encoded sizes, JPEG
decode-after-encode pixel round trip). -/
structure Env where
  inputExists : Bool
  origImage : Image
  composite : Nat → Nat
  resizePix : Nat → Nat → Nat → Nat
  encPNG : Image → Nat
  encJPEG : Nat → Image → Nat
  jpegRT : Nat → Nat → Nat

/-- Failure injection: which of the fallible library calls raises.
`openFails` is the initial `Image.open(input_path)`, `reopenFails` the
`Image.open(backup_path)` in the dimension-reduction fallback. -/
structure FailSpec where
  openFails : Bool
  pngSaveFails : Bool
  jpegSaveFails : Nat → Bool
  reopenFails : Bool
  finalSaveFails : Bool

/-- The no-failure instantiation: every library call succeeds. -/
def noFail : FailSpec :=
  { openFails := false, pngSaveFails := false, jpegSaveFails := fun _ => false,
    reopenFails := false, finalSaveFails := false }

/-- Lines 27-31 and 67-70 of the script: `if img.mode == 'RGBA'`, paste the
image onto an opaque white RGB canvas of the same size.  Any other mode is
left untouched. -/
def flattenIfRGBA (e : Env) (img : Image) : Image :=
  if img.mode = "RGBA" then
    { width := img.width, height := img.height, mode := "RGB", pix := e.composite img.pix }
  else img

/-- `img.resize((w, h), LANCZOS)`: new dimensions, same mode, resampled pixels. -/
def resizeImg (e : Env) (w h : Nat) (img : Image) : Image :=
  { width := w, height := h, mode := img.mode, pix := e.resizePix w h img.pix }

/-- The script's size test `size_kb < max_size_kb` where
`size_kb = size_bytes / 1024` (exact, since 1024 is a power of two and file
sizes are far below 2^53): equivalently `size_bytes < kb * 1024`. -/
def underBudget (sizeBytes kb : Nat) : Bool :=
  decide (sizeBytes < kb * 1024)

/-- The fixed descending JPEG quality ladder of line 52. -/
def ladderQualities : List Nat := [95, 85, 75, 65, 55, 45]

/-- One encoding attempt: the format, the in-memory image whose pixels were
encoded, and the resulting file size in bytes. -/
structure Attempt where
  fmt : Fmt
  src : Image
  size : Nat
deriving DecidableEq, Repr

/-- Which accept point of `compress_image` returned. -/
inductive Stage where
  | lossless : Stage
  | ladder : Nat → Stage
  | fallback : Stage
deriving DecidableEq, Repr

/-- A normal return of `compress_image`: the accept point, the final file
size in bytes, the image and format of the final save, the written
dimensions, the backup-file state afterwards, how many times
`backup_path.unlink()` ran, and the ordered list of every encoding attempt
made. -/
structure RunResult where
  stage : Stage
  size : Nat
  outImage : Image
  outFmt : Fmt
  outWidth : Nat
  outHeight : Nat
  backupExists : Bool
  backupUnlinks : Nat
  attempts : List Attempt
deriving DecidableEq, Repr

/-- State observable after an exception propagates out of
`compress_image`: whether the rename-to-backup had run, and whether the
backup file is on disk at that moment. -/
structure ErrInfo where
  backupCreated : Bool
  backupExists : Bool
deriving DecidableEq, Repr

/-- Lines 52-62: the JPEG quality loop.  `acc` is the list of attempts made
so far.  Each iteration saves at quality `q`, measures, and returns at the
first strictly-under-budget size; otherwise the loop falls through
(`Sum.inr`) with all attempts recorded. -/
def ladderGo (e : Env) (f : FailSpec) (b : Nat) (img : Image) (acc : List Attempt) :
    List Nat → Except ErrInfo RunResult ⊕ List Attempt
  | [] => Sum.inr acc
  | q :: qs =>
    if f.jpegSaveFails q then Sum.inl (Except.error ⟨true, true⟩)
    else
      let s := e.encJPEG q img
      let acc2 := acc ++ [⟨Fmt.jpeg q, img, s⟩]
      if underBudget s b then
        Sum.inl (Except.ok
          ⟨Stage.ladder q, s, img, Fmt.jpeg q, img.width, img.height, false, 1, acc2⟩)
      else ladderGo e f b img acc2 qs

/-- The whole of `compress_image(input_path, max_size_kb)` (lines 9-82).
In order: `Image.open` (raises before any backup exists when the path is
missing), RGBA flattening, the rename of the input to the backup path,
the lossless PNG pass, the quality ladder, and the dimension-reduction
fallback which re-opens the backup (whose bytes are the untouched
original, so decoding yields `e.origImage` again), re-flattens, resizes to
`int(w * 0.8) = ⌊w * 4 / 5⌋` (exact for all realistic widths since binary
rounding of `w * 0.8` never crosses an integer there), and saves once at
JPEG quality 85 unconditionally. -/
def compressImage (e : Env) (f : FailSpec) (b : Nat) : Except ErrInfo RunResult :=
  if e.inputExists = false then Except.error ⟨false, false⟩
  else if f.openFails then Except.error ⟨false, false⟩
  else
    let img := flattenIfRGBA e e.origImage
    if f.pngSaveFails then Except.error ⟨true, true⟩
    else
      let pngSize := e.encPNG img
      let a0 : List Attempt := [⟨Fmt.png, img, pngSize⟩]
      if underBudget pngSize b then
        Except.ok ⟨Stage.lossless, pngSize, img, Fmt.png, img.width, img.height, false, 1, a0⟩
      else
        match ladderGo e f b img a0 ladderQualities with
        | Sum.inl r => r
        | Sum.inr acc =>
          if f.reopenFails then Except.error ⟨true, true⟩
          else
            let img2 := flattenIfRGBA e e.origImage
            let nw := img2.width * 4 / 5
            let nh := img2.height * 4 / 5
            let imgR := resizeImg e nw nh img2
            if f.finalSaveFails then Except.error ⟨true, true⟩
            else
              let s := e.encJPEG 85 imgR
              Except.ok ⟨Stage.fallback, s, imgR, Fmt.jpeg 85, nw, nh, false, 1,
                acc ++ [⟨Fmt.jpeg 85, imgR, s⟩]⟩

/-- `compress_image` with every library call succeeding. -/
def compressOk (e : Env) (b : Nat) : Except ErrInfo RunResult :=
  compressImage e noFail b

/-- `main()` (lines 85-118): exit 1 when the banner file is missing, else
run the pipeline at the hard-coded budget of 300 KB, exiting 0 on normal
return and 1 when an exception propagates. -/
def mainRun (e : Env) (f : FailSpec) : Nat :=
  if e.inputExists = false then 1
  else
    match compressImage e f 300 with
    | Except.ok _ => 0
    | Except.error _ => 1

/-- The image every lossless and ladder encode works on: the decode of the
original input, flattened. -/
def theImg (e : Env) : Image := flattenIfRGBA e e.origImage

/-- Size in bytes of the lossless PNG pass. -/
def pngSz (e : Env) : Nat := e.encPNG (theImg e)

/-- The first ladder quality whose JPEG encode is strictly under budget. -/
def ladderFind (e : Env) (b : Nat) : Option Nat :=
  ladderQualities.find? (fun q => underBudget (e.encJPEG q (theImg e)) b)

/-- Fallback output width: `int(w * 0.8)`. -/
def fbW (e : Env) : Nat := (theImg e).width * 4 / 5

/-- Fallback output height: `int(h * 0.8)`. -/
def fbH (e : Env) : Nat := (theImg e).height * 4 / 5

/-- The resized image encoded by the fallback. -/
def fbImg (e : Env) : Image := resizeImg e (fbW e) (fbH e) (theImg e)

/-- Size in bytes of the fallback's single JPEG-85 encode. -/
def fbSz (e : Env) : Nat := e.encJPEG 85 (fbImg e)

/-- The lossless pass's attempt record. -/
def pngAttempt (e : Env) : Attempt := ⟨Fmt.png, theImg e, pngSz e⟩

/-- The ladder attempts actually made, walking `qs` until the first
under-budget quality (inclusive). -/
def jAttempts (e : Env) (img : Image) (b : Nat) : List Nat → List Attempt
  | [] => []
  | q :: qs =>
    ⟨Fmt.jpeg q, img, e.encJPEG q img⟩ ::
      (if underBudget (e.encJPEG q img) b then [] else jAttempts e img b qs)

/-- The `RunResult` of an accept at the lossless PNG stage. -/
def losslessRes (e : Env) : RunResult :=
  ⟨Stage.lossless, pngSz e, theImg e, Fmt.png, (theImg e).width, (theImg e).height,
    false, 1, [pngAttempt e]⟩

/-- The `RunResult` of an accept at ladder quality `q`. -/
def ladderRes (e : Env) (b q : Nat) : RunResult :=
  ⟨Stage.ladder q, e.encJPEG q (theImg e), theImg e, Fmt.jpeg q,
    (theImg e).width, (theImg e).height, false, 1,
    pngAttempt e :: jAttempts e (theImg e) b ladderQualities⟩

/-- The `RunResult` of the unconditional dimension-reduction fallback. -/
def fallbackRes (e : Env) (b : Nat) : RunResult :=
  ⟨Stage.fallback, fbSz e, fbImg e, Fmt.jpeg 85, fbW e, fbH e, false, 1,
    (pngAttempt e :: jAttempts e (theImg e) b ladderQualities) ++
      [⟨Fmt.jpeg 85, fbImg e, fbSz e⟩]⟩

/-- Helper for the `pathlib.Path.with_suffix` model: scanning a reversed
name, drop characters up to and including the first `.`; `none` when no
dot occurs. -/
def dropToDot : List Char → Option (List Char)
  | [] => none
  | c :: cs => if c = '.' then some cs else dropToDot cs

/-- `PurePath.with_suffix(suf)` on a file name: replace the recognized
extension (the part from the last dot on, provided that dot is neither the
first nor the last character) with `suf`; a name with no recognized
extension gets `suf` appended. -/
def withSuffix (name suf : List Char) : List Char :=
  match name.reverse with
  | [] => suf
  | last :: _ =>
    if last = '.' then name ++ suf
    else
      match dropToDot name.reverse with
      | some rest => if rest = [] then name ++ suf else rest.reverse ++ suf
      | none => name ++ suf

/-- Line 34 of the script: `input_path.with_suffix('.backup.png')`. -/
def backupNameOf (name : List Char) : List Char :=
  withSuffix name (String.toList ".backup.png")

/-- The environment of a second pipeline run whose input file is the output
written by a first run that returned `r`: the same library oracles, an
existing input, and an original image obtained by decoding that output.
PNG decoding is lossless, so a PNG output decodes to the very image that
was saved; a JPEG output decodes to the lossy round-trip of its pixels. -/
def envAfter (e : Env) (r : RunResult) : Env :=
  { e with
    inputExists := true
    origImage :=
      match r.outFmt with
      | Fmt.png => r.outImage
      | Fmt.jpeg q => { r.outImage with pix := e.jpegRT q r.outImage.pix } }

/-- A concrete opaque 1200x630 image. -/
def imgRGB : Image := ⟨1200, 630, "RGB", 0⟩

/-- A concrete 1200x630 image with an alpha channel. -/
def imgRGBA : Image := ⟨1200, 630, "RGBA", 0⟩

/-- A concrete environment whose PNG pass exceeds a 300 KB budget, whose
JPEG encode at quality 95 also exceeds it, and whose JPEG encodes below
quality 95 land at 280 KB: the pipeline accepts at ladder quality 85. -/
def envLadder : Env :=
  { inputExists := true, origImage := imgRGB,
    composite := fun p => p + 1000,
    resizePix := fun _ _ p => p + 2000,
    encPNG := fun _ => 320 * 1024,
    encJPEG := fun q _ => if 95 ≤ q then 310 * 1024 else 280 * 1024,
    jpegRT := fun _ p => p + 3000 }

/-- A concrete environment whose lossless PNG pass is already under a
300 KB budget. -/
def envLossless : Env :=
  { envLadder with encPNG := fun _ => 200 * 1024 }

/-- A concrete environment in which every encode, including the final
downscaled one, exceeds a 300 KB budget. -/
def envFallback : Env :=
  { envLadder with encPNG := fun _ => 400 * 1024, encJPEG := fun _ _ => 350 * 1024 }

/-- A concrete environment whose input file is missing. -/
def envMissing : Env :=
  { envLadder with inputExists := false }

/-- Failure injection making the lossless `img.save` raise (an exception
after the rename-to-backup). -/
def failPng : FailSpec :=
  { noFail with pngSaveFails := true }

theorem underBudget_iff_rat (s k : Nat) :
    underBudget s k = true ↔ (s : ℚ) / 1024 < (k : ℚ) := by
  rw [underBudget, decide_eq_true_iff, div_lt_iff₀ (by norm_num : (0 : ℚ) < 1024)]
  exact_mod_cast Iff.rfl


theorem noFail_open : noFail.openFails = false := rfl

theorem noFail_png : noFail.pngSaveFails = false := rfl

theorem noFail_jpeg (q : Nat) : noFail.jpegSaveFails q = false := rfl

theorem noFail_reopen : noFail.reopenFails = false := rfl

theorem noFail_final : noFail.finalSaveFails = false := rfl

theorem ladderGo_eq (e : Env) (b : Nat) (img : Image) (acc : List Attempt) (qs : List Nat) :
    ladderGo e noFail b img acc qs =
      match qs.find? (fun q => underBudget (e.encJPEG q img) b) with
      | some q => Sum.inl (Except.ok
          ⟨Stage.ladder q, e.encJPEG q img, img, Fmt.jpeg q, img.width, img.height, false, 1,
            acc ++ jAttempts e img b qs⟩)
      | none => Sum.inr (acc ++ jAttempts e img b qs) := by
  induction qs generalizing acc with
  | nil => simp [ladderGo, jAttempts]
  | cons q qs ih =>
    by_cases h : underBudget (e.encJPEG q img) b = true
    · simp only [List.find?, h]
      simp [ladderGo, noFail_jpeg, jAttempts, h]
    · have h2 : underBudget (e.encJPEG q img) b = false := by
        rwa [Bool.not_eq_true] at h
      simp only [List.find?, h2]
      rw [show ladderGo e noFail b img acc (q :: qs) =
            ladderGo e noFail b img (acc ++ [⟨Fmt.jpeg q, img, e.encJPEG q img⟩]) qs by
          simp [ladderGo, noFail_jpeg, h2]]
      rw [ih]
      cases hfind : List.find? (fun x => underBudget (e.encJPEG x img) b) qs with
      | none => simp [jAttempts, h2]
      | some q2 => simp [jAttempts, h2]

theorem compressOk_lossless (e : Env) (b : Nat) (hin : e.inputExists = true)
    (hp : underBudget (pngSz e) b = true) :
    compressOk e b = Except.ok (losslessRes e) := by
  have hp2 : underBudget (e.encPNG (flattenIfRGBA e e.origImage)) b = true := hp
  simp [compressOk, compressImage, hin, noFail_open, noFail_png, hp2, losslessRes,
    theImg, pngSz, pngAttempt]

theorem compressOk_ladder (e : Env) (b q : Nat) (hin : e.inputExists = true)
    (hp : underBudget (pngSz e) b = false)
    (hq : ladderFind e b = some q) :
    compressOk e b = Except.ok (ladderRes e b q) := by
  have hp2 : underBudget (e.encPNG (flattenIfRGBA e e.origImage)) b = false := hp
  have hq2 : List.find? (fun x => underBudget (e.encJPEG x (flattenIfRGBA e e.origImage)) b)
      ladderQualities = some q := hq
  simp [compressOk, compressImage, hin, noFail_open, noFail_png, hp2, ladderGo_eq, hq2,
    ladderRes, theImg, pngSz, pngAttempt]

theorem compressOk_fallback (e : Env) (b : Nat) (hin : e.inputExists = true)
    (hp : underBudget (pngSz e) b = false)
    (hq : ladderFind e b = none) :
    compressOk e b = Except.ok (fallbackRes e b) := by
  have hp2 : underBudget (e.encPNG (flattenIfRGBA e e.origImage)) b = false := hp
  have hq2 : List.find? (fun x => underBudget (e.encJPEG x (flattenIfRGBA e e.origImage)) b)
      ladderQualities = none := hq
  simp [compressOk, compressImage, hin, noFail_open, noFail_png, noFail_reopen, noFail_final,
    hp2, ladderGo_eq, hq2, fallbackRes, theImg, pngSz, pngAttempt, fbW, fbH, fbImg, fbSz]

theorem ladderGo_err (e : Env) (f : FailSpec) (b : Nat) (img : Image) (acc : List Attempt)
    (qs : List Nat) (err : ErrInfo)
    (h : ladderGo e f b img acc qs = Sum.inl (Except.error err)) :
    err = ⟨true, true⟩ := by
  induction qs generalizing acc with
  | nil => simp [ladderGo] at h
  | cons q qs ih =>
    simp only [ladderGo] at h
    split at h
    · simp only [Sum.inl.injEq, Except.error.injEq] at h
      exact h.symm
    · split at h
      · simp at h
      · exact ih _ h

theorem ladderGo_ok (e : Env) (f : FailSpec) (b : Nat) (img : Image) (acc : List Attempt)
    (qs : List Nat) (r : RunResult)
    (h : ladderGo e f b img acc qs = Sum.inl (Except.ok r)) :
    r.backupExists = false ∧ r.backupUnlinks = 1 := by
  induction qs generalizing acc with
  | nil => simp [ladderGo] at h
  | cons q qs ih =>
    simp only [ladderGo] at h
    split at h
    · simp at h
    · split at h
      · simp only [Sum.inl.injEq, Except.ok.injEq] at h
        rw [← h]
        exact ⟨rfl, rfl⟩
      · exact ih _ h

theorem compressImage_ok_backup (e : Env) (f : FailSpec) (b : Nat) (r : RunResult)
    (h : compressImage e f b = Except.ok r) :
    r.backupExists = false ∧ r.backupUnlinks = 1 := by
  simp only [compressImage] at h
  split at h
  · simp at h
  · split at h
    · simp at h
    · split at h
      · simp at h
      · split at h
        · simp only [Except.ok.injEq] at h
          rw [← h]
          exact ⟨rfl, rfl⟩
        · cases hl : ladderGo e f b (flattenIfRGBA e e.origImage)
              [⟨Fmt.png, flattenIfRGBA e e.origImage, e.encPNG (flattenIfRGBA e e.origImage)⟩]
              ladderQualities with
          | inl x =>
            rw [hl] at h
            cases x with
            | error err => simp at h
            | ok r2 =>
              simp only [Except.ok.injEq] at h
              rw [← h]
              exact ladderGo_ok e f b _ _ _ _ hl
          | inr acc =>
            rw [hl] at h
            split at h
            · rename_i heq
              simp at heq
            · split at h
              · simp at h
              · split at h
                · simp at h
                · simp only [Except.ok.injEq] at h
                  rw [← h]
                  exact ⟨rfl, rfl⟩

theorem compressImage_err_inv (e : Env) (f : FailSpec) (b : Nat) (err : ErrInfo)
    (h : compressImage e f b = Except.error err) :
    err = ⟨false, false⟩ ∨ err = ⟨true, true⟩ := by
  simp only [compressImage] at h
  split at h
  · simp only [Except.error.injEq] at h
    exact Or.inl h.symm
  · split at h
    · simp only [Except.error.injEq] at h
      exact Or.inl h.symm
    · split at h
      · simp only [Except.error.injEq] at h
        exact Or.inr h.symm
      · split at h
        · simp at h
        · cases hl : ladderGo e f b (flattenIfRGBA e e.origImage)
              [⟨Fmt.png, flattenIfRGBA e e.origImage, e.encPNG (flattenIfRGBA e e.origImage)⟩]
              ladderQualities with
          | inl x =>
            rw [hl] at h
            cases x with
            | error err2 =>
              simp only [Except.error.injEq] at h
              rw [← h]
              exact Or.inr (ladderGo_err e f b _ _ _ _ hl)
            | ok r2 => simp at h
          | inr acc =>
            rw [hl] at h
            split at h
            · rename_i heq
              simp at heq
            · split at h
              · simp only [Except.error.injEq] at h
                exact Or.inr h.symm
              · split at h
                · simp only [Except.error.injEq] at h
                  exact Or.inr h.symm
                · simp at h

theorem compressImage_missing (e : Env) (f : FailSpec) (b : Nat)
    (h : e.inputExists = false) :
    compressImage e f b = Except.error ⟨false, false⟩ := by
  simp [compressImage, h]

theorem flattenIfRGBA_of_rgba (e : Env) (img : Image) (h : img.mode = "RGBA") :
    flattenIfRGBA e img = ⟨img.width, img.height, "RGB", e.composite img.pix⟩ := by
  rw [flattenIfRGBA, if_pos h]

theorem flattenIfRGBA_of_ne (e : Env) (img : Image) (h : img.mode ≠ "RGBA") :
    flattenIfRGBA e img = img := by
  rw [flattenIfRGBA, if_neg h]

theorem flattenIfRGBA_mode_ne (e : Env) (img : Image) :
    (flattenIfRGBA e img).mode ≠ "RGBA" := by
  rw [flattenIfRGBA]
  split
  · simp
  · rename_i hm
    exact hm

theorem flattenIfRGBA_idem (e : Env) (img : Image) :
    flattenIfRGBA e (flattenIfRGBA e img) = flattenIfRGBA e img :=
  flattenIfRGBA_of_ne e _ (flattenIfRGBA_mode_ne e img)

theorem flattenIfRGBA_width (e : Env) (img : Image) :
    (flattenIfRGBA e img).width = img.width := by
  rw [flattenIfRGBA]
  split <;> rfl

theorem flattenIfRGBA_height (e : Env) (img : Image) :
    (flattenIfRGBA e img).height = img.height := by
  rw [flattenIfRGBA]
  split <;> rfl

theorem compressOk_inv (e : Env) (b : Nat) (r : RunResult)
    (h : compressOk e b = Except.ok r) :
    e.inputExists = true ∧
    ((underBudget (pngSz e) b = true ∧ r = losslessRes e) ∨
     (underBudget (pngSz e) b = false ∧
       ∃ q, ladderFind e b = some q ∧ r = ladderRes e b q) ∨
     (underBudget (pngSz e) b = false ∧ ladderFind e b = none ∧ r = fallbackRes e b)) := by
  have hin : e.inputExists = true := by
    by_contra hc
    rw [Bool.not_eq_true] at hc
    rw [compressOk, compressImage_missing e noFail b hc] at h
    simp at h
  refine ⟨hin, ?_⟩
  by_cases hp : underBudget (pngSz e) b = true
  · left
    refine ⟨hp, ?_⟩
    rw [compressOk_lossless e b hin hp] at h
    simpa using h.symm
  · have hp2 : underBudget (pngSz e) b = false := by
      rwa [Bool.not_eq_true] at hp
    cases hq : ladderFind e b with
    | some q =>
      right; left
      refine ⟨hp2, q, rfl, ?_⟩
      rw [compressOk_ladder e b q hin hp2 hq] at h
      simpa using h.symm
    | none =>
      right; right
      refine ⟨hp2, rfl, ?_⟩
      rw [compressOk_fallback e b hin hp2 hq] at h
      simpa using h.symm

theorem jAttempts_src (e : Env) (img : Image) (b : Nat) (qs : List Nat) :
    ∀ a ∈ jAttempts e img b qs, a.src = img := by
  induction qs with
  | nil =>
    intro a ha
    simp [jAttempts] at ha
  | cons q qs ih =>
    intro a ha
    simp only [jAttempts] at ha
    rcases List.mem_cons.mp ha with h1 | h2
    · rw [h1]
    · split at h2
      · simp at h2
      · exact ih a h2

theorem jAttempts_fmt (e : Env) (img : Image) (b : Nat) (qs : List Nat) :
    ∀ a ∈ jAttempts e img b qs, ∃ q, a.fmt = Fmt.jpeg q := by
  induction qs with
  | nil =>
    intro a ha
    simp [jAttempts] at ha
  | cons q qs ih =>
    intro a ha
    simp only [jAttempts] at ha
    rcases List.mem_cons.mp ha with h1 | h2
    · exact ⟨q, by rw [h1]⟩
    · split at h2
      · simp at h2
      · exact ih a h2

theorem attempts_src_ok (e : Env) (b : Nat) (r : RunResult)
    (h : compressOk e b = Except.ok r) :
    ∀ a ∈ r.attempts, a.src = theImg e ∨ a.src = fbImg e := by
  obtain ⟨hin, hcase⟩ := compressOk_inv e b r h
  rcases hcase with ⟨hp, hr⟩ | ⟨hp, q, hq, hr⟩ | ⟨hp, hq, hr⟩ <;> subst hr <;> intro a ha
  · rcases List.mem_singleton.mp ha with rfl
    exact Or.inl rfl
  · rcases List.mem_cons.mp ha with h1 | h2
    · rw [h1]
      exact Or.inl rfl
    · exact Or.inl (jAttempts_src e (theImg e) b ladderQualities a h2)
  · rcases List.mem_append.mp ha with h1 | h2
    · rcases List.mem_cons.mp h1 with h3 | h4
      · rw [h3]
        exact Or.inl rfl
      · exact Or.inl (jAttempts_src e (theImg e) b ladderQualities a h4)
    · rcases List.mem_singleton.mp h2 with rfl
      exact Or.inr rfl

theorem dropToDot_append (l1 l2 : List Char) (h : '.' ∉ l1) :
    dropToDot (l1 ++ '.' :: l2) = some l2 := by
  induction l1 with
  | nil => simp [dropToDot]
  | cons c cs ih =>
    have hc : c ≠ '.' := fun hcc => h (hcc ▸ List.mem_cons_self c cs)
    have hcs : '.' ∉ cs := fun hm => h (List.mem_cons_of_mem c hm)
    simp only [List.cons_append, dropToDot]
    rw [if_neg hc]
    exact ih hcs

theorem withSuffix_ext (stem ext suf : List Char) (hstem : stem ≠ [])
    (hne : ext ≠ []) (hdot : '.' ∉ ext) :
    withSuffix (stem ++ '.' :: ext) suf = stem ++ suf := by
  obtain ⟨e1, erest, hrev⟩ : ∃ e1 erest, ext.reverse = e1 :: erest := by
    cases hr : ext.reverse with
    | nil =>
      exact absurd (by simpa using congrArg List.reverse hr) hne
    | cons a l => exact ⟨a, l, rfl⟩
  have hrevname : (stem ++ '.' :: ext).reverse = e1 :: (erest ++ '.' :: stem.reverse) := by
    rw [List.reverse_append, List.reverse_cons, hrev]
    simp
  have he1 : ¬ e1 = '.' := by
    intro hc
    apply hdot
    have hm : e1 ∈ ext.reverse := by
      rw [hrev]
      exact List.mem_cons_self _ _
    rw [List.mem_reverse] at hm
    rwa [hc] at hm
  have hdrop : dropToDot ((stem ++ '.' :: ext).reverse) = some stem.reverse := by
    rw [hrevname]
    have hd := dropToDot_append ext.reverse stem.reverse (by rwa [List.mem_reverse])
    rw [hrev] at hd
    simpa using hd
  have hrestne : ¬ stem.reverse = [] := by
    simpa using hstem
  rw [withSuffix, hrevname]
  simp only [he1, if_false, ← hrevname, hdrop, hrestne, List.reverse_reverse]

/-- C1: for an input the lossless stage does not satisfy, the quality at
which the pipeline accepts is the first level of the fixed descending
ladder [95, 85, 75, 65, 55, 45] whose encoded size is strictly below
`budget_kb * 1024` bytes (so no lower quality is chosen when a higher one
already fits), and a size exactly equal to the budget is not under budget,
sending the run to the next ladder step. -/
theorem ladder_accepts_first_quality (e : Env) (b q : Nat) (r : RunResult)
    (hok : compressOk e b = Except.ok r) (hst : r.stage = Stage.ladder q) :
    ladderQualities.find? (fun x => underBudget (e.encJPEG x (theImg e)) b) = some q ∧
    underBudget (b * 1024) b = false := by
  refine ⟨?_, by simp [underBudget]⟩
  obtain ⟨hin, hcase⟩ := compressOk_inv e b r hok
  rcases hcase with ⟨hp, hr⟩ | ⟨hp, q2, hq, hr⟩ | ⟨hp, hq, hr⟩ <;> subst hr
  · simp [losslessRes] at hst
  · simp only [ladderRes] at hst
    cases hst
    exact hq
  · simp [fallbackRes] at hst

/-- Witness: in `envLadder` with budget 300 the run accepts at quality 85,
the first ladder level strictly under 307200 bytes. -/
theorem ladder_accepts_first_quality_witness :
    ladderQualities.find? (fun x => underBudget (envLadder.encJPEG x (theImg envLadder)) 300)
      = some 85 ∧
    underBudget (300 * 1024) 300 = false :=
  ladder_accepts_first_quality envLadder 300 85 (ladderRes envLadder 300 85) rfl rfl

/-- C2: when the lossless PNG re-encode is under budget the pipeline stops
at the lossless stage: the run returns `losslessRes`, whose only encoding
attempt is the PNG one (no lossy encode is attempted), the backup is
deleted exactly once, and the returned size is strictly below
`budget_kb * 1024` bytes. -/
theorem lossless_stage_accepts (e : Env) (b : Nat) (hin : e.inputExists = true)
    (hp : underBudget (pngSz e) b = true) :
    compressOk e b = Except.ok (losslessRes e) ∧
    (losslessRes e).stage = Stage.lossless ∧
    (losslessRes e).attempts = [pngAttempt e] ∧
    (∀ a ∈ (losslessRes e).attempts, a.fmt = Fmt.png) ∧
    (losslessRes e).backupExists = false ∧
    (losslessRes e).backupUnlinks = 1 ∧
    (losslessRes e).size < b * 1024 := by
  refine ⟨compressOk_lossless e b hin hp, rfl, rfl, ?_, rfl, rfl, ?_⟩
  · intro a ha
    rcases List.mem_singleton.mp ha with rfl
    rfl
  · have hb := hp
    rw [underBudget, decide_eq_true_iff] at hb
    exact hb

/-- Witness: in `envLossless` the PNG pass lands at 204800 bytes, under
the 300 KB budget, and the run stops at the lossless stage. -/
theorem lossless_stage_accepts_witness :
    compressOk envLossless 300 = Except.ok (losslessRes envLossless) ∧
    (losslessRes envLossless).stage = Stage.lossless ∧
    (losslessRes envLossless).attempts = [pngAttempt envLossless] ∧
    (∀ a ∈ (losslessRes envLossless).attempts, a.fmt = Fmt.png) ∧
    (losslessRes envLossless).backupExists = false ∧
    (losslessRes envLossless).backupUnlinks = 1 ∧
    (losslessRes envLossless).size < 300 * 1024 :=
  lossless_stage_accepts envLossless 300 rfl rfl

/-- C3: when all six ladder attempts fail, the pipeline decodes the backup
(the untouched original), re-applies the color-mode normalization, writes
an image of exactly `int(w*0.8) = ⌊w*4/5⌋` by `⌊h*4/5⌋` pixels encoded
once as JPEG quality 85, and accepts it with no condition on the resulting
size. -/
theorem fallback_downscale_shape (e : Env) (b : Nat) (hin : e.inputExists = true)
    (hp : underBudget (pngSz e) b = false)
    (hq : ladderFind e b = none) :
    compressOk e b = Except.ok (fallbackRes e b) ∧
    (fallbackRes e b).stage = Stage.fallback ∧
    (fallbackRes e b).outWidth = e.origImage.width * 4 / 5 ∧
    (fallbackRes e b).outHeight = e.origImage.height * 4 / 5 ∧
    (fallbackRes e b).outFmt = Fmt.jpeg 85 ∧
    (fallbackRes e b).outImage =
      resizeImg e (fbW e) (fbH e) (flattenIfRGBA e e.origImage) ∧
    (fallbackRes e b).size = e.encJPEG 85 (fbImg e) ∧
    (fallbackRes e b).backupExists = false := by
  refine ⟨compressOk_fallback e b hin hp hq, rfl, ?_, ?_, rfl, rfl, rfl, rfl⟩
  · show fbW e = e.origImage.width * 4 / 5
    rw [fbW, theImg, flattenIfRGBA_width]
  · show fbH e = e.origImage.height * 4 / 5
    rw [fbH, theImg, flattenIfRGBA_height]

/-- Witness: in `envFallback` every encode is oversized; the fallback
writes 960 x 504 (from 1200 x 630) at JPEG quality 85. -/
theorem fallback_downscale_shape_witness :
    compressOk envFallback 300 = Except.ok (fallbackRes envFallback 300) ∧
    (fallbackRes envFallback 300).stage = Stage.fallback ∧
    (fallbackRes envFallback 300).outWidth = envFallback.origImage.width * 4 / 5 ∧
    (fallbackRes envFallback 300).outHeight = envFallback.origImage.height * 4 / 5 ∧
    (fallbackRes envFallback 300).outFmt = Fmt.jpeg 85 ∧
    (fallbackRes envFallback 300).outImage =
      resizeImg envFallback (fbW envFallback) (fbH envFallback)
        (flattenIfRGBA envFallback envFallback.origImage) ∧
    (fallbackRes envFallback 300).size = envFallback.encJPEG 85 (fbImg envFallback) ∧
    (fallbackRes envFallback 300).backupExists = false :=
  fallback_downscale_shape envFallback 300 rfl rfl rfl

/-- C4: backup lifecycle.  A run that returns normally leaves no backup
file and unlinked it exactly once; a run that raises after the
rename-to-backup (backup created) leaves the backup on disk; and when the
input path does not exist the failure occurs before the rename, so no
backup is ever created. -/
theorem backup_lifecycle (e : Env) (f : FailSpec) (b : Nat) :
    (∀ r, compressImage e f b = Except.ok r →
      r.backupExists = false ∧ r.backupUnlinks = 1) ∧
    (∀ err, compressImage e f b = Except.error err →
      err.backupCreated = true → err.backupExists = true) ∧
    (e.inputExists = false → compressImage e f b = Except.error ⟨false, false⟩) := by
  refine ⟨fun r h => compressImage_ok_backup e f b r h, fun err h hc => ?_,
    fun h => compressImage_missing e f b h⟩
  rcases compressImage_err_inv e f b err h with h1 | h1
  · rw [h1] at hc
    simp at hc
  · rw [h1]

/-- Witness: a normal run in `envLadder` deletes the backup once; a PNG
save failure leaves it; a missing input creates none. -/
theorem backup_lifecycle_witness :
    ((ladderRes envLadder 300 85).backupExists = false ∧
      (ladderRes envLadder 300 85).backupUnlinks = 1) ∧
    (ErrInfo.mk true true).backupExists = true ∧
    compressImage envMissing noFail 300 = Except.error ⟨false, false⟩ :=
  ⟨(backup_lifecycle envLadder noFail 300).1 (ladderRes envLadder 300 85) rfl,
   (backup_lifecycle envLadder failPng 300).2.1 ⟨true, true⟩ rfl rfl,
   (backup_lifecycle envMissing noFail 300).2.2 rfl⟩

/-- C5 counterexample: the script derives the backup path with
`with_suffix('.backup.png')`, so input `banner.jpg` gets backup
`banner.backup.png`, not the `banner.backup.jpg` the claim's
name.ext-to-name.backup.ext scheme requires. -/
theorem backup_name_counterexample :
    backupNameOf (String.toList "banner.jpg") = String.toList "banner.backup.png" ∧
    backupNameOf (String.toList "banner.jpg") ≠ String.toList "banner.backup.jpg" := by
  constructor
  · rfl
  · decide

/-- C5 amended: the original is renamed to a backup path derived by
replacing the recognized extension with the fixed suffix ".backup.png":
every input `name.ext` (nonempty stem, nonempty dot-free extension) yields
backup `name.backup.png` — agreeing with the claimed `name.backup.ext`
scheme only when the extension is `png`. -/
theorem backup_name_replaces_ext (stem ext : List Char) (hstem : stem ≠ [])
    (hne : ext ≠ []) (hdot : '.' ∉ ext) :
    backupNameOf (stem ++ '.' :: ext) = stem ++ String.toList ".backup.png" :=
  withSuffix_ext stem ext _ hstem hne hdot

/-- Witness: the script's actual input `og-banner.png` is backed up as
`og-banner.backup.png`. -/
theorem backup_name_replaces_ext_witness :
    backupNameOf (String.toList "og-banner" ++ '.' :: String.toList "png") =
      String.toList "og-banner" ++ String.toList ".backup.png" :=
  backup_name_replaces_ext (String.toList "og-banner") (String.toList "png")
    (by decide) (by decide) (by decide)

/-- C6 counterexample: an image in mode "LA" (grayscale plus an alpha
channel) carries transparency, yet the script's `mode == 'RGBA'` test
leaves it untouched: it is not flattened onto white before encoding. -/
theorem flatten_skips_la_counterexample :
    (Image.mk 1200 630 "LA" 0).mode ≠ "RGB" ∧
    flattenIfRGBA envLadder ⟨1200, 630, "LA", 0⟩ = ⟨1200, 630, "LA", 0⟩ := by
  constructor
  · decide
  · rfl

/-- C6 amended: exactly the images whose mode is the string "RGBA" are
flattened onto an opaque white background — other transparency-capable
modes are left as they are; the flattening precedes every encode (no
encoding attempt's source image is in mode "RGBA") and is idempotent. -/
theorem flatten_rgba_only (e : Env) (img : Image) (b : Nat) (r : RunResult) :
    (img.mode = "RGBA" →
      flattenIfRGBA e img = ⟨img.width, img.height, "RGB", e.composite img.pix⟩) ∧
    (img.mode ≠ "RGBA" → flattenIfRGBA e img = img) ∧
    flattenIfRGBA e (flattenIfRGBA e img) = flattenIfRGBA e img ∧
    (compressOk e b = Except.ok r → ∀ a ∈ r.attempts, a.src.mode ≠ "RGBA") := by
  refine ⟨flattenIfRGBA_of_rgba e img, flattenIfRGBA_of_ne e img,
    flattenIfRGBA_idem e img, fun hok a ha => ?_⟩
  rcases attempts_src_ok e b r hok a ha with h | h
  · rw [h]
    exact flattenIfRGBA_mode_ne e e.origImage
  · rw [h]
    exact flattenIfRGBA_mode_ne e e.origImage

/-- Witness: the RGBA test image is flattened to white-composited RGB, the
RGB one is untouched, and every attempt of the `envLadder` run encodes a
non-RGBA image. -/
theorem flatten_rgba_only_witness :
    flattenIfRGBA envLadder imgRGBA = ⟨1200, 630, "RGB", 1000⟩ ∧
    flattenIfRGBA envLadder imgRGB = imgRGB ∧
    (∀ a ∈ (ladderRes envLadder 300 85).attempts, a.src.mode ≠ "RGBA") :=
  ⟨(flatten_rgba_only envLadder imgRGBA 300 (ladderRes envLadder 300 85)).1 rfl,
   (flatten_rgba_only envLadder imgRGB 300 (ladderRes envLadder 300 85)).2.1 (by decide),
   (flatten_rgba_only envLadder imgRGBA 300 (ladderRes envLadder 300 85)).2.2.2 rfl⟩

/-- C7 counterexample: a first run that accepts on the quality ladder
(quality 85 at 286720 bytes, under the 300 KB budget) writes a JPEG; the
second run decodes that JPEG and its lossless PNG re-encode is 327680
bytes, over budget, so the second run does not stop at the lossless stage
and lossily re-encodes again. -/
theorem second_run_not_lossless_counterexample :
    compressOk envLadder 300 = Except.ok (ladderRes envLadder 300 85) ∧
    (ladderRes envLadder 300 85).size < 300 * 1024 ∧
    compressOk (envAfter envLadder (ladderRes envLadder 300 85)) 300 =
      Except.ok (ladderRes (envAfter envLadder (ladderRes envLadder 300 85)) 300 85) ∧
    (ladderRes (envAfter envLadder (ladderRes envLadder 300 85)) 300 85).stage ≠
      Stage.lossless := by
  refine ⟨rfl, by decide, rfl, by decide⟩

/-- C7 amended: when the first run accepted at the lossless stage, a
second run on its output again accepts at the lossless stage with the same
size — PNG decoding is lossless, the output is never in mode "RGBA", and
the deterministic encoder reproduces the under-budget size.  A first run
that exits via the JPEG ladder or the fallback carries no such guarantee
(see the counterexample). -/
theorem second_run_lossless (e : Env) (b : Nat) (r : RunResult)
    (hok : compressOk e b = Except.ok r) (hst : r.stage = Stage.lossless) :
    compressOk (envAfter e r) b = Except.ok (losslessRes (envAfter e r)) ∧
    (losslessRes (envAfter e r)).stage = Stage.lossless ∧
    (losslessRes (envAfter e r)).size = r.size := by
  obtain ⟨hin, hcase⟩ := compressOk_inv e b r hok
  rcases hcase with ⟨hp, hr⟩ | ⟨hp, q, hq, hr⟩ | ⟨hp, hq, hr⟩
  · subst hr
    have htheImg : theImg (envAfter e (losslessRes e)) = theImg e := by
      rw [theImg]
      show flattenIfRGBA (envAfter e (losslessRes e)) (theImg e) = theImg e
      exact flattenIfRGBA_of_ne _ _ (flattenIfRGBA_mode_ne e e.origImage)
    have hpng2 : pngSz (envAfter e (losslessRes e)) = pngSz e := by
      rw [pngSz, htheImg]
      rfl
    have hp2 : underBudget (pngSz (envAfter e (losslessRes e))) b = true := by
      rw [hpng2]
      exact hp
    refine ⟨compressOk_lossless _ b rfl hp2, rfl, ?_⟩
    show pngSz (envAfter e (losslessRes e)) = pngSz e
    exact hpng2
  · subst hr
    simp [ladderRes] at hst
  · subst hr
    simp [fallbackRes] at hst

/-- Witness: after a lossless accept in `envLossless`, the second run is
again lossless with the same 204800-byte size. -/
theorem second_run_lossless_witness :
    compressOk (envAfter envLossless (losslessRes envLossless)) 300 =
      Except.ok (losslessRes (envAfter envLossless (losslessRes envLossless))) ∧
    (losslessRes (envAfter envLossless (losslessRes envLossless))).stage = Stage.lossless ∧
    (losslessRes (envAfter envLossless (losslessRes envLossless))).size =
      (losslessRes envLossless).size :=
  second_run_lossless envLossless 300 (losslessRes envLossless) rfl rfl

/-- C8: when every ladder step fails and even the downscaled encode is not
under budget, `compress_image` does not raise or signal anything: it
returns normally, deletes the backup exactly once, and hands back the
oversized size exactly as in the success case. -/
theorem oversized_result_returned (e : Env) (b : Nat) (hin : e.inputExists = true)
    (hp : underBudget (pngSz e) b = false)
    (hq : ladderFind e b = none)
    (hbig : underBudget (fbSz e) b = false) :
    compressOk e b = Except.ok (fallbackRes e b) ∧
    (fallbackRes e b).size = fbSz e ∧
    ¬ (fallbackRes e b).size < b * 1024 ∧
    (fallbackRes e b).backupExists = false ∧
    (fallbackRes e b).backupUnlinks = 1 := by
  refine ⟨compressOk_fallback e b hin hp hq, rfl, ?_, rfl, rfl⟩
  show ¬ fbSz e < b * 1024
  rw [underBudget] at hbig
  simpa using hbig

/-- Witness: in `envFallback` even the downscaled encode is 358400 bytes,
over the 307200-byte budget, and the run still returns it normally. -/
theorem oversized_result_returned_witness :
    compressOk envFallback 300 = Except.ok (fallbackRes envFallback 300) ∧
    (fallbackRes envFallback 300).size = fbSz envFallback ∧
    ¬ (fallbackRes envFallback 300).size < 300 * 1024 ∧
    (fallbackRes envFallback 300).backupExists = false ∧
    (fallbackRes envFallback 300).backupUnlinks = 1 :=
  oversized_result_returned envFallback 300 rfl rfl rfl rfl

/-- C9: the entry point exits 0 when the pipeline returns normally, 1 when
the banner file is missing (the pipeline never starts), and 1 when an
exception propagates out of the pipeline. -/
theorem main_exit_codes (e : Env) (f : FailSpec) :
    (e.inputExists = false → mainRun e f = 1) ∧
    (∀ r, compressImage e f 300 = Except.ok r → mainRun e f = 0) ∧
    (∀ err, compressImage e f 300 = Except.error err → mainRun e f = 1) := by
  refine ⟨fun h => by simp [mainRun, h], fun r h => ?_, fun err h => ?_⟩
  · have hin : e.inputExists = true := by
      cases hie : e.inputExists
      · rw [compressImage_missing e f 300 hie] at h
        simp at h
      · rfl
    simp [mainRun, hin, h]
  · cases hie : e.inputExists
    · simp [mainRun, hie]
    · simp [mainRun, hie, h]

/-- Witness: exit 1 on a missing banner, exit 0 on the `envLadder` run,
exit 1 when the lossless save raises. -/
theorem main_exit_codes_witness :
    mainRun envMissing noFail = 1 ∧ mainRun envLadder noFail = 0 ∧
    mainRun envLadder failPng = 1 :=
  ⟨(main_exit_codes envMissing noFail).1 rfl,
   (main_exit_codes envLadder noFail).2.1 (ladderRes envLadder 300 85) rfl,
   (main_exit_codes envLadder failPng).2.2 ⟨true, true⟩ rfl⟩

/-- C10: every encoding attempt of a run — the PNG pass, each ladder
attempt, and the fallback encode — encodes the flattened decode of the
original input file (for the fallback, its resize, obtained by re-decoding
the backup whose bytes are the original's); no attempt encodes pixels
decoded back from a previous lossy output. -/
theorem attempts_use_original_pixels (e : Env) (b : Nat) (r : RunResult)
    (hok : compressOk e b = Except.ok r) :
    ∀ a ∈ r.attempts,
      a.src = flattenIfRGBA e e.origImage ∨
      a.src = resizeImg e (fbW e) (fbH e) (flattenIfRGBA e e.origImage) :=
  attempts_src_ok e b r hok

/-- Witness: the PNG attempt of the `envFallback` run encodes the
flattened original (or its single resize). -/
theorem attempts_use_original_pixels_witness :
    (pngAttempt envFallback).src = flattenIfRGBA envFallback envFallback.origImage ∨
    (pngAttempt envFallback).src =
      resizeImg envFallback (fbW envFallback) (fbH envFallback)
        (flattenIfRGBA envFallback envFallback.origImage) :=
  attempts_use_original_pixels envFallback 300 (fallbackRes envFallback 300) rfl
    (pngAttempt envFallback) (by decide)
